import Mathlib

set_option maxHeartbeats 1000000

/-!
Verification development for the PakNet-AI front-end.

The embedding below models the two real components of the source:
the Gemini request builder (`generateBlueprint`) and the hand-rolled
line-by-line Markdown renderer (`MarkdownContent`), together with the
history helper `saveToHistory`.  Lines are modelled as `List Char`
(JavaScript strings), whole documents as `List Char` split on the
newline character, and the single outbound network call as an explicit
function argument `api` whose issued requests are recorded in a trace.
JavaScript regular expressions are modelled by executable scanners with
the same matching semantics (leftmost match, lazy `.*?`); the Unicode
whitespace class is restricted to its ASCII part, which is all the
source ever meets in the spec's examples.
-/

/-- The backquote character, written by code point to keep it out of the
plain program text. -/
def btick : Char := Char.ofNat 96

/-- ASCII part of the JavaScript whitespace class used by `trim` and the
regex class `\s`. -/
def isWS (c : Char) : Bool :=
  c == ' ' || c == '\t' || c == '\n' || c == '\r' || c == '\x0b' || c == '\x0c'

/-- JavaScript `String.prototype.startsWith` on char lists. -/
def startsWithL : List Char → List Char → Bool
  | [], _ => true
  | _ :: _, [] => false
  | p :: ps, c :: cs => p == c && startsWithL ps cs

/-- JavaScript `String.prototype.trim` (both ends), restricted to the
ASCII whitespace characters. -/
def jsTrim (l : List Char) : List Char :=
  ((l.dropWhile isWS).reverse.dropWhile isWS).reverse

/-- JavaScript `content.split('\n')`: splitting the empty string yields
one empty line. -/
def splitLines : List Char → List (List Char)
  | [] => [[]]
  | c :: rest =>
    if c == '\n' then [] :: splitLines rest
    else
      match splitLines rest with
      | [] => [[c]]
      | l :: ls => (c :: l) :: ls

/-- The triple-backquote fence marker. -/
def fenceChars : List Char := [btick, btick, btick]

/-- The fence test of the renderer: `line.trim().startsWith('```')`. -/
def isFence (line : List Char) : Bool :=
  startsWithL fenceChars (jsTrim line)

/-- One bold/plain span of a rendered paragraph. -/
structure Span where
  text : List Char
  bold : Bool
deriving DecidableEq

/-- The display nodes produced by `MarkdownContent`, abstracting the
emitted JSX elements. -/
inductive RenderNode where
  | heading (level : Nat) (text : List Char)
  | listItem (ordered : Bool) (text : List Char)
  | codeBlock (lines : List (List Char))
  | paragraph (spans : List Span)
  | blank
deriving DecidableEq

/-- First match of two adjacent stars: `findBB cs = some (pre, post)`
means `cs = pre ++ '*' :: '*' :: post` and the pair shown is the
leftmost one. -/
def findBB : List Char → Option (List Char × List Char)
  | [] => none
  | [_] => none
  | c :: d :: rest =>
    if c == '*' && d == '*' then some ([], rest)
    else (findBB (d :: rest)).map (fun p => (c :: p.1, p.2))

/-- One piece of the regex split `line.split(/(\*\*.*?\*\*)/)`: a gap
between matches, or the inner text of a captured match. -/
inductive Piece where
  | gap (s : List Char)
  | sep (inner : List Char)
deriving DecidableEq

/-- Fuelled match decomposition for the lazy pattern: the leftmost two
stars open a match, the next two stars close it, and scanning resumes
after the closing pair.  The fuel only serves structural recursion;
`splitPieces` supplies enough of it for any input. -/
def splitPiecesF : Nat → List Char → List Piece
  | 0, cs => [Piece.gap cs]
  | fuel + 1, cs =>
    match findBB cs with
    | none => [Piece.gap cs]
    | some (pre, post) =>
      match findBB post with
      | none => [Piece.gap cs]
      | some (mid, rest) => Piece.gap pre :: Piece.sep mid :: splitPiecesF fuel rest

/-- Match decomposition of a line by the capturing bold pattern. -/
def splitPieces (cs : List Char) : List Piece :=
  splitPiecesF cs.length cs

/-- The text a piece contributes to the split output: gaps verbatim,
matches with their delimiters restored. -/
def pieceText : Piece → List Char
  | Piece.gap s => s
  | Piece.sep inner => '*' :: '*' :: (inner ++ ['*', '*'])

/-- JavaScript `line.split(/(\*\*.*?\*\*)/)`: gaps and captured
separators, in order. -/
def splitBB (cs : List Char) : List (List Char) :=
  (splitPieces cs).map pieceText

/-- JavaScript `part.startsWith('**')`. -/
def bbStart : List Char → Bool
  | c :: d :: _ => c == '*' && d == '*'
  | _ => false

/-- No two adjacent stars occur in the list; the negation of a
two-star occurrence, used to reason about the split's gap pieces. -/
def noBB : List Char → Bool
  | [] => true
  | [_] => true
  | c :: d :: rest => !(c == '*' && d == '*') && noBB (d :: rest)

/-- JavaScript `part.endsWith('**')`; the two-star pattern is its own
reversal. -/
def bbEnd (l : List Char) : Bool :=
  bbStart l.reverse

/-- JavaScript `part.slice(2, -2)`. -/
def slice2m2 (l : List Char) : List Char :=
  (l.drop 2).take (l.length - 4)

/-- The renderer's per-part bolding rule: a part that starts and ends
with two stars becomes a bold span with its outer characters cut. -/
def mkSpan (part : List Char) : Span :=
  if bbStart part && bbEnd part then ⟨slice2m2 part, true⟩ else ⟨part, false⟩

/-- The paragraph branch of the renderer: split on the bold pattern and
map each part through the bolding rule. -/
def toSpans (line : List Char) : List Span :=
  (splitBB line).map mkSpan

/-- Modelled from the spec: paragraph lines are split into spans such
that exactly the text between matching non-greedy two-star delimiter
pairs is flagged bold with the delimiters removed, and all other text is
passed through unmodified.  Stated over the same match decomposition the
code's split performs. -/
def specBoldSpans (line : List Char) : List Span :=
  (splitPieces line).map (fun pc =>
    match pc with
    | Piece.gap s => ⟨s, false⟩
    | Piece.sep inner => ⟨inner, true⟩)

/-- Tail of the ordered-list test: digits already seen, accept on a dot
after zero or more further digits. -/
def ordTail : List Char → Bool
  | [] => false
  | c :: rest => c == '.' || (c.isDigit && ordTail rest)

/-- JavaScript `line.match(/^\d+\./)` as a Boolean test. -/
def ordMatch : List Char → Bool
  | [] => false
  | c :: rest => c.isDigit && ordTail rest

/-- JavaScript `line.replace(/^\d+\.\s+/, '')`: the leading digit run,
a dot and at least one whitespace character are removed when that
pattern is present, otherwise the line is returned unchanged. -/
def stripOrdered (cs : List Char) : List Char :=
  if (cs.takeWhile Char.isDigit).isEmpty then cs
  else
    match cs.drop (cs.takeWhile Char.isDigit).length with
    | '.' :: rest =>
      if (rest.takeWhile isWS).isEmpty then cs
      else rest.drop (rest.takeWhile isWS).length
    | _ => cs

/-- Classification of one line in the Normal state, in the source's
branch order. -/
def classify (line : List Char) : RenderNode :=
  if startsWithL ['#', ' '] line then RenderNode.heading 1 (line.drop 2)
  else if startsWithL ['#', '#', ' '] line then RenderNode.heading 2 (line.drop 3)
  else if startsWithL ['#', '#', '#', ' '] line then RenderNode.heading 3 (line.drop 4)
  else if startsWithL ['-', ' '] line || startsWithL ['*', ' '] line then
    RenderNode.listItem false (line.drop 2)
  else if ordMatch line then RenderNode.listItem true (stripOrdered line)
  else if jsTrim line = [] then RenderNode.blank
  else RenderNode.paragraph (toSpans line)

/-- Renderer state: emitted nodes, the open code block's line buffer and
the `isCodeBlock` flag. -/
structure RState where
  elements : List RenderNode
  buffer : List (List Char)
  inCode : Bool
deriving DecidableEq

/-- The body of the renderer's `forEach`: fences toggle the state (a
closing fence flushes the buffer as one code block), lines inside a
block are buffered, and Normal lines are classified and emitted. -/
def step (s : RState) (line : List Char) : RState :=
  if isFence line then
    if s.inCode then ⟨s.elements ++ [RenderNode.codeBlock s.buffer], [], false⟩
    else ⟨s.elements, s.buffer, true⟩
  else if s.inCode then ⟨s.elements, s.buffer ++ [line], true⟩
  else ⟨s.elements ++ [classify line], s.buffer, false⟩

/-- The renderer's starting state. -/
def initState : RState := ⟨[], [], false⟩

/-- Folding the renderer over an explicit line list. -/
def renderLines (ls : List (List Char)) : List RenderNode :=
  (List.foldl step initState ls).elements

/-- The whole `MarkdownContent` pipeline: split on newlines, fold the
state machine, return the emitted nodes (an unterminated buffer is
discarded with the final state). -/
def render (content : List Char) : List RenderNode :=
  renderLines (splitLines content)

/-- The `Blueprint` record of `types.ts`. -/
structure Blueprint where
  id : String
  deviceModel : String
  content : String
  timestamp : Nat
deriving DecidableEq

/-- `saveToHistory` of the app component: prepend the new record to the
old history purged of records with the same device model and cut to
nine entries. -/
def saveToHistory (blueprint : Blueprint) (history : List Blueprint) : List Blueprint :=
  blueprint :: ((history.filter (fun h => h.deviceModel != blueprint.deviceModel)).take 9)

/-- The fixed system instruction of the Gemini service (verbatim, with
quote characters escaped). -/
def SYSTEM_INSTRUCTION : String := "You are the PakNet AI Orchestrator, an Enterprise-Level AI Network Automation and Deployment Engine.\nRole: Senior Network Architect, Security Engineer, DevOps Automation Engineer, and Infrastructure Consultant with 20+ years of experience.\n\nWhen a user provides a device name/model, generate a complete professional consultancy report titled \x22AI-Generated Enterprise Network Deployment Blueprint\x22.\n\nThe output MUST be in high-quality Markdown and include these sections exactly:\n1. Device Overview (Capabilities, use cases, ideal deployment)\n2. Network Architecture Design (Text-based logical topology, physical placement)\n3. Initial Setup Process (Physical steps, console access, firmware, IP)\n4. Full Professional Configuration:\n   - Provide comprehensive, production-ready CLI configuration blocks.\n   - For VLANs: Include specific VLAN IDs, names, and port assignments.\n   - For Inter-VLAN Routing: Provide specific SVI (Switch Virtual Interface) or Sub-interface configurations with IP addressing.\n   - For DHCP: Detail the DHCP pool configuration including ranges, exclusions, DNS servers, and default gateways.\n   - Also include: DNS, NAT, ACLs, Firewall rules, SSH, SNMP, NTP, Logging, and Backup configurations.\n5. Security Hardening (Enterprise grade, RBAC, NIST/ISO 27001 alignment)\n6. AI-Based Optimization Recommendations (Traffic, QoS, Load balancing, redundancy, HA)\n7. Automation Script Section:\n   - Provide high-quality, production-ready automation examples.\n   - Detailed Explanations: Explain the logic, modules used, and intent of each script.\n   - Ansible Playbook: Include robust error handling using \x27block\x27, \x27rescue\x27, and \x27always\x27 statements. Use best-practice modules (e.g., cisco.ios.ios_config, fortinet.fortios.fortios_configuration).\n   - Python Netmiko Script: Utilize the \x27ConnectHandler\x27 as a context manager. Include comprehensive try-except blocks for \x27NetmikoTimeoutException\x27 and \x27NetmikoAuthenticationException\x27. Demonstrate secure credential handling and configuration verification.\n   - Zero-Touch Deployment (ZTP): Provide a conceptual workflow for automated provisioning at scale.\n8. Deployment Checklist (Pre & Post)\n9. Documentation Summary (Client Handover Format)\n10. Risk Analysis & Mitigation Plan\n11. Estimated Deployment Cost (Basic vs Enterprise scale in PKR/USD)\n\nContext: Pakistan public/private sector environments. \nTone: Senior technical, formal, professional consultancy style. \nAlways prioritize automation over manual tasks.\nEnsure configuration blocks and scripts are tailored specifically to the operating system of the device provided (e.g., Cisco IOS-XE, FortiOS, Junos, RouterOS, etc.)."

/-- The outbound generation request: model name, interpolated user
prompt and the fixed system instruction.  The numeric sampling
parameters (temperature, nucleus top-p, thinking budget) are
floating-point configuration and are not modelled. -/
structure GenerationRequest where
  model : String
  contents : String
  systemInstruction : String
deriving DecidableEq

/-- Construction of the single request `generateBlueprint` sends. -/
def buildRequest (deviceModel : String) : GenerationRequest :=
  ⟨"gemini-3-pro-preview",
   "Generate a comprehensive blueprint for the device: " ++ deviceModel ++ ". Pay special attention to Section 7, providing highly detailed, error-resilient automation scripts with best-practice Python/Ansible logic.",
   SYSTEM_INSTRUCTION⟩

/-- The Gemini service call: the external endpoint is an explicit
function from requests to a response text or a transport error, and the
first component of the result records every request issued.  A
successful call with an empty text payload falls back to the literal
failure string; any thrown error is caught and replaced by the single
fixed user-facing message. -/
def generateBlueprint {ε : Type} (deviceModel : String)
    (api : GenerationRequest → Except ε String) :
    List GenerationRequest × Except String String :=
  ([buildRequest deviceModel],
   match api (buildRequest deviceModel) with
   | Except.ok text =>
     Except.ok (if text = "" then "Failed to generate blueprint content." else text)
   | Except.error _ =>
     Except.error "Unable to reach PakNet AI services. Please verify your connection.")

/-- The device-model string is part of the interpolated prompt with this
fixed text on either side. -/
theorem buildRequest_contents (dm : String) :
    ∃ pre post, (buildRequest dm).contents = pre ++ dm ++ post :=
  ⟨"Generate a comprehensive blueprint for the device: ",
   ". Pay special attention to Section 7, providing highly detailed, error-resilient automation scripts with best-practice Python/Ansible logic.",
   rfl⟩

/-- C6: for every device model and every error thrown by the outbound
generation call, generateBlueprint raises exactly the single fixed
error message, independent of the kind and the content of the
underlying error, which is not propagated to the caller. -/
theorem generateBlueprint_wrapsError {ε : Type} (dm : String) (e : ε)
    (api : GenerationRequest → Except ε String)
    (h : api (buildRequest dm) = Except.error e) :
    (generateBlueprint dm api).2 =
      Except.error "Unable to reach PakNet AI services. Please verify your connection." := by
  simp [generateBlueprint, h]

/-- Witness for C6 at a concrete device model and a concrete thrown
error. -/
theorem generateBlueprint_wrapsError_wit :
    (generateBlueprint "Cisco Catalyst 9200"
        (fun _ => Except.error "socket hang up")).2 =
      Except.error "Unable to reach PakNet AI services. Please verify your connection." :=
  generateBlueprint_wrapsError "Cisco Catalyst 9200" "socket hang up" _ rfl

/-- C7: if the outbound call succeeds with an empty text payload,
generateBlueprint returns the literal fallback string and raises no
error. -/
theorem generateBlueprint_emptyFallback {ε : Type} (dm : String)
    (api : GenerationRequest → Except ε String)
    (h : api (buildRequest dm) = Except.ok "") :
    (generateBlueprint dm api).2 =
      Except.ok "Failed to generate blueprint content." := by
  simp [generateBlueprint, h]

/-- Witness for C7 at a concrete device model with an API returning the
empty payload. -/
theorem generateBlueprint_emptyFallback_wit :
    (generateBlueprint "Fortigate 100F"
        (fun _ => (Except.ok "" : Except String String))).2 =
      Except.ok "Failed to generate blueprint content." :=
  generateBlueprint_emptyFallback "Fortigate 100F" _ rfl

/-- C8: one call to generateBlueprint issues exactly one outbound
request, and the user prompt of that request contains the device-model
string as a literal substring. -/
theorem generateBlueprint_singleRequest {ε : Type} (dm : String) (hne : dm ≠ "")
    (api : GenerationRequest → Except ε String) :
    (generateBlueprint dm api).1 = [buildRequest dm] ∧
    (generateBlueprint dm api).1.length = 1 ∧
    ∃ pre post, (buildRequest dm).contents = pre ++ dm ++ post :=
  ⟨rfl, rfl, buildRequest_contents dm⟩

/-- Witness for C8 at a concrete non-empty device model. -/
theorem generateBlueprint_singleRequest_wit :
    (generateBlueprint "Palo Alto PA-440"
        (fun _ => (Except.ok "report" : Except String String))).1.length = 1 :=
  (generateBlueprint_singleRequest "Palo Alto PA-440" (by decide)
    (fun _ => (Except.ok "report" : Except String String))).2.1

/-- C10: rendering the empty string does not yield an empty node
sequence; splitting the empty string on newline yields one empty line,
so the output is exactly one spacer node. -/
theorem renderEmptyBlank :
    splitLines [] = [[]] ∧
    render ("".toList) = [RenderNode.blank] ∧
    render ("".toList) ≠ [] := by
  refine ⟨rfl, by decide, by decide⟩

/-- C9: any split part that starts and ends with the two-star delimiter
is emitted as a bold span with its first two and its last two
characters cut, so a paragraph line consisting solely of two or of
three stars yields one empty bold span instead of passing through
unmodified. -/
theorem boldDelimiterQuirk :
    (∀ part : List Char, bbStart part = true → bbEnd part = true →
        mkSpan part = ⟨slice2m2 part, true⟩) ∧
    toSpans ("**".toList) = [⟨[], true⟩] ∧
    toSpans ("***".toList) = [⟨[], true⟩] ∧
    mkSpan ("**".toList) ≠ ⟨"**".toList, false⟩ := by
  refine ⟨?_, by decide, by decide, by decide⟩
  intro part h1 h2
  simp [mkSpan, h1, h2]

/-- Witness for C9 at the two-star part. -/
theorem boldDelimiterQuirk_wit :
    mkSpan ("**".toList) = ⟨slice2m2 ("**".toList), true⟩ :=
  boldDelimiterQuirk.1 ("**".toList) (by decide) (by decide)

/-- C5 counterexample: on the paragraph line of two stars the renderer
emits an empty bold span although that line has no matching delimiter
pair, so its text is neither left unflagged nor passed through
unmodified, against the spec-side description specBoldSpans. -/
theorem boldPassThrough_cex :
    toSpans ("**".toList) = [⟨[], true⟩] ∧
    specBoldSpans ("**".toList) = [⟨"**".toList, false⟩] ∧
    toSpans ("**".toList) ≠ specBoldSpans ("**".toList) := by
  refine ⟨by decide, by decide, by decide⟩

/-- C4 counterexample: the line 1.foo matches the ordered pattern but
its node text still carries the digits-and-dot head, because the strip
pattern additionally demands trailing whitespace. -/
theorem orderedStrip_cex :
    ordMatch ("1.foo".toList) = true ∧
    classify ("1.foo".toList) = RenderNode.listItem true ("1.foo".toList) ∧
    startsWithL ("1.".toList) ("1.foo".toList) = true := by
  refine ⟨by decide, by decide, by decide⟩

/-- Every record kept from the old history has a device model different
from the new record's. -/
theorem saveToHistory_tail_ne (b : Blueprint) (hs : List Blueprint) :
    ∀ x ∈ (saveToHistory b hs).tail, x.deviceModel ≠ b.deviceModel := by
  intro x hx
  have hx' : x ∈ hs.filter (fun h => h.deviceModel != b.deviceModel) :=
    List.mem_of_mem_take hx
  have := (List.mem_filter.mp hx').2
  simpa using this

/-- saveToHistory preserves freedom from duplicate device models. -/
theorem saveToHistory_nodupDM (b : Blueprint) (hs : List Blueprint)
    (h : (hs.map Blueprint.deviceModel).Nodup) :
    ((saveToHistory b hs).map Blueprint.deviceModel).Nodup := by
  unfold saveToHistory
  rw [List.map_cons, List.nodup_cons]
  constructor
  · intro hmem
    obtain ⟨x, hx, hdm⟩ := List.mem_map.mp hmem
    exact saveToHistory_tail_ne b hs x hx hdm
  · have hsub :
        List.Sublist
          ((hs.filter (fun h => h.deviceModel != b.deviceModel)).take 9) hs :=
      ((hs.filter (fun h => h.deviceModel != b.deviceModel)).take_sublist 9).trans
        (hs.filter_sublist)
    exact h.sublist (hsub.map Blueprint.deviceModel)

/-- The result of saveToHistory never has more than ten entries. -/
theorem saveToHistory_len (b : Blueprint) (hs : List Blueprint) :
    (saveToHistory b hs).length ≤ 10 := by
  simp only [saveToHistory, List.length_cons, List.length_take]
  omega

/-- Iterating saveToHistory keeps the history deduplicated and capped. -/
theorem saveToHistory_foldl (bs : List Blueprint) :
    ∀ s : List Blueprint, (s.map Blueprint.deviceModel).Nodup → s.length ≤ 10 →
      (((bs.foldl (fun h nb => saveToHistory nb h) s).map Blueprint.deviceModel).Nodup ∧
        (bs.foldl (fun h nb => saveToHistory nb h) s).length ≤ 10) := by
  induction bs with
  | nil => intro s h1 h2; exact ⟨h1, h2⟩
  | cons b bs ih =>
    intro s h1 _
    exact ih (saveToHistory b s) (saveToHistory_nodupDM b s h1) (saveToHistory_len b s)

/-- C1: saveToHistory puts the new record at the front, keeps no other
entry with its device model, preserves freedom from duplicate device
models, caps the list at ten entries, and these bounds persist under any
number of successive additions. -/
theorem saveToHistory_invariant (b : Blueprint) (hs : List Blueprint)
    (hnd : (hs.map Blueprint.deviceModel).Nodup) :
    (saveToHistory b hs).head? = some b ∧
    (∀ x ∈ (saveToHistory b hs).tail, x.deviceModel ≠ b.deviceModel) ∧
    ((saveToHistory b hs).map Blueprint.deviceModel).Nodup ∧
    (saveToHistory b hs).length ≤ 10 ∧
    (∀ bs : List Blueprint,
      ((bs.foldl (fun h nb => saveToHistory nb h)
          (saveToHistory b hs)).map Blueprint.deviceModel).Nodup ∧
      (bs.foldl (fun h nb => saveToHistory nb h)
          (saveToHistory b hs)).length ≤ 10) :=
  ⟨rfl, saveToHistory_tail_ne b hs, saveToHistory_nodupDM b hs hnd,
   saveToHistory_len b hs,
   fun bs => saveToHistory_foldl bs (saveToHistory b hs)
     (saveToHistory_nodupDM b hs hnd) (saveToHistory_len b hs)⟩

/-- Witness for C1 at a concrete record and the empty starting
history. -/
theorem saveToHistory_invariant_wit :
    (saveToHistory ⟨"id0", "Cisco Catalyst 9200", "report", 0⟩ []).head? =
      some ⟨"id0", "Cisco Catalyst 9200", "report", 0⟩ :=
  (saveToHistory_invariant ⟨"id0", "Cisco Catalyst 9200", "report", 0⟩ []
    (by simp)).1

/-- While the code-block flag is set, non-fence lines are only
accumulated verbatim into the buffer: the emitted nodes and the flag do
not change. -/
theorem foldl_step_inCode (cs : List (List Char)) :
    ∀ (e : List RenderNode) (b : List (List Char)),
      (∀ c ∈ cs, isFence c = false) →
      List.foldl step ⟨e, b, true⟩ cs = ⟨e, b ++ cs, true⟩ := by
  induction cs with
  | nil => intro e b _; simp
  | cons c cs ih =>
    intro e b h
    have hc : isFence c = false := h c (List.mem_cons_self ..)
    have hrest : ∀ x ∈ cs, isFence x = false :=
      fun x hx => h x (List.mem_cons_of_mem _ hx)
    simp only [List.foldl_cons]
    rw [show step ⟨e, b, true⟩ c = ⟨e, b ++ [c], true⟩ by simp [step, hc]]
    rw [ih e (b ++ [c]) hrest]
    simp

/-- C2: from the Normal state with an empty buffer, an opening fence, a
run of non-fence lines (blank lines included) and a closing fence emit
exactly one code block holding those lines verbatim; neither fence
produces a node, the buffer is cleared and the state returns to Normal.
The concrete fenced document of the spec renders to exactly one code
block with its two lines. -/
theorem fencedBlockRoundTrip (s : RState) (cs : List (List Char)) (f g : List Char)
    (hf : isFence f = true) (hg : isFence g = true)
    (hcs : ∀ c ∈ cs, isFence c = false)
    (hnc : s.inCode = false) (hbuf : s.buffer = []) :
    List.foldl step s (f :: (cs ++ [g])) =
      ⟨s.elements ++ [RenderNode.codeBlock cs], [], false⟩ ∧
    render ("```\nline1\nline2\n```".toList) =
      [RenderNode.codeBlock ["line1".toList, "line2".toList]] := by
  constructor
  · simp only [List.foldl_cons]
    rw [show step s f = ⟨s.elements, s.buffer, true⟩ by simp [step, hf, hnc]]
    rw [hbuf, List.foldl_append]
    rw [foldl_step_inCode cs s.elements [] hcs]
    simp [step, hg]
  · decide

/-- Witness for C2 at a one-line block between concrete fences. -/
theorem fencedBlockRoundTrip_wit :
    List.foldl step initState
        (("```".toList) :: (["hello world".toList] ++ ["```".toList])) =
      ⟨[RenderNode.codeBlock ["hello world".toList]], [], false⟩ :=
  (fencedBlockRoundTrip initState ["hello world".toList]
    ("```".toList) ("```".toList) (by decide) (by decide) (by decide) rfl rfl).1

/-- C3: when the input ends while the renderer is still inside a code
block, the lines accumulated after the unmatched opening fence are never
emitted: the rendered node list is that of the text before the fence,
and the concrete unterminated document renders to no nodes at all. -/
theorem unterminatedFenceDropped (ls cs : List (List Char)) (f : List Char)
    (hf : isFence f = true) (hcs : ∀ c ∈ cs, isFence c = false)
    (hnc : (List.foldl step initState ls).inCode = false) :
    renderLines (ls ++ f :: cs) = renderLines ls ∧
    render ("```\nline1\nline2".toList) = [] := by
  constructor
  · unfold renderLines
    rw [List.foldl_append]
    simp only [List.foldl_cons]
    rw [show step (List.foldl step initState ls) f =
        ⟨(List.foldl step initState ls).elements,
         (List.foldl step initState ls).buffer, true⟩ by simp [step, hf, hnc]]
    rw [foldl_step_inCode cs (List.foldl step initState ls).elements
        (List.foldl step initState ls).buffer hcs]
  · decide

/-- Witness for C3: a lone opening fence followed by one ordinary line
renders to the nodes of the empty prefix. -/
theorem unterminatedFenceDropped_wit :
    renderLines ([] ++ ("```".toList) :: ["orphan".toList]) = renderLines [] :=
  (unterminatedFenceDropped [] ["orphan".toList] ("```".toList)
    (by decide) (by decide) rfl).1

/-- takeWhile of an append whose left part satisfies the predicate and
whose right part opens with a failing character. -/
theorem takeWhile_all_app (p : Char → Bool) (l₁ l₂ : List Char)
    (h1 : ∀ a ∈ l₁, p a = true)
    (h2 : ∀ c, l₂.head? = some c → p c = false) :
    (l₁ ++ l₂).takeWhile p = l₁ := by
  induction l₁ with
  | nil =>
    simp only [List.nil_append]
    cases l₂ with
    | nil => rfl
    | cons c cs => simp [List.takeWhile_cons, h2 c rfl]
  | cons a l₁ ih =>
    have ha : p a = true := h1 a (List.mem_cons_self ..)
    simp only [List.cons_append, List.takeWhile_cons, ha, if_true]
    rw [ih (fun x hx => h1 x (List.mem_cons_of_mem _ hx))]

/-- Two characters with different digit status are unequal as Booleans. -/
theorem beq_false_of_digit_status (a d : Char)
    (hd : d.isDigit = true) (ha : a.isDigit = false) : (a == d) = false := by
  by_contra hcon
  simp only [Bool.not_eq_false, beq_iff_eq] at hcon
  subst hcon
  rw [hd] at ha
  cases ha

/-- A whitespace character is never a digit. -/
theorem isWS_not_digit (c : Char) (h : isWS c = true) : c.isDigit = false := by
  simp only [isWS, Bool.or_eq_true, beq_iff_eq] at h
  rcases h with ((((h | h) | h) | h) | h) | h <;> subst h <;> decide

/-- A marker character is never whitespace-equal. -/
theorem beq_false_of_ws (a c : Char)
    (hc : isWS c = true) (ha : isWS a = false) : (a == c) = false := by
  by_contra hcon
  simp only [Bool.not_eq_false, beq_iff_eq] at hcon
  subst hcon
  rw [hc] at ha
  cases ha

/-- The ordered-pattern tail accepts a digit run followed by a dot. -/
theorem ordTail_digits_dot (ds rest : List Char)
    (h : ∀ c ∈ ds, c.isDigit = true) :
    ordTail (ds ++ '.' :: rest) = true := by
  induction ds with
  | nil => simp [ordTail]
  | cons d ds ih =>
    have hd : d.isDigit = true := h d (List.mem_cons_self ..)
    have ht := ih (fun c hc => h c (List.mem_cons_of_mem _ hc))
    show (d == '.' || (d.isDigit && ordTail (ds ++ '.' :: rest))) = true
    rw [hd, ht]
    simp

/-- A level-one heading line is classified first and stripped of its
two-character marker. -/
theorem classify_h1 (t : List Char) :
    classify ('#' :: ' ' :: t) = RenderNode.heading 1 t := by
  simp [classify, startsWithL]

/-- A level-two heading line is classified second and stripped of its
three-character marker. -/
theorem classify_h2 (t : List Char) :
    classify ('#' :: '#' :: ' ' :: t) = RenderNode.heading 2 t := by
  simp [classify, startsWithL]

/-- A level-three heading line is classified third and stripped of its
four-character marker. -/
theorem classify_h3 (t : List Char) :
    classify ('#' :: '#' :: '#' :: ' ' :: t) = RenderNode.heading 3 t := by
  simp [classify, startsWithL]

/-- A dash list line becomes an unordered item with the marker
stripped. -/
theorem classify_dash (t : List Char) :
    classify ('-' :: ' ' :: t) = RenderNode.listItem false t := by
  simp [classify, startsWithL]

/-- A star list line becomes an unordered item with the marker
stripped. -/
theorem classify_star (t : List Char) :
    classify ('*' :: ' ' :: t) = RenderNode.listItem false t := by
  simp [classify, startsWithL]

/-- An ordered-list line whose digits and dot are followed by
whitespace is classified as an ordered item with the whole head
stripped. -/
theorem classify_ord_strip (d : Char) (ds ws t : List Char)
    (hd : ∀ c ∈ d :: ds, c.isDigit = true)
    (hws : ws ≠ []) (hw : ∀ c ∈ ws, isWS c = true)
    (ht : ∀ c, t.head? = some c → isWS c = false) :
    classify (d :: (ds ++ '.' :: (ws ++ t))) = RenderNode.listItem true t := by
  have hd0 : d.isDigit = true := hd d (List.mem_cons_self ..)
  have hno1 : (('#' : Char) == d) = false :=
    beq_false_of_digit_status '#' d hd0 (by decide)
  have hno2 : (('-' : Char) == d) = false :=
    beq_false_of_digit_status '-' d hd0 (by decide)
  have hno3 : (('*' : Char) == d) = false :=
    beq_false_of_digit_status '*' d hd0 (by decide)
  have hord : ordMatch (d :: (ds ++ '.' :: (ws ++ t))) = true := by
    show (d.isDigit && ordTail (ds ++ '.' :: (ws ++ t))) = true
    rw [hd0, ordTail_digits_dot ds _ (fun c hc => hd c (List.mem_cons_of_mem _ hc))]
    rfl
  have htake : (d :: (ds ++ '.' :: (ws ++ t))).takeWhile Char.isDigit = d :: ds := by
    rw [← List.cons_append]
    exact takeWhile_all_app Char.isDigit (d :: ds) ('.' :: (ws ++ t)) hd
      (fun c hc => by simp at hc; rw [← hc]; decide)
  have hdrop :
      (d :: (ds ++ '.' :: (ws ++ t))).drop (d :: ds).length = '.' :: (ws ++ t) := by
    rw [← List.cons_append]
    exact List.drop_left (d :: ds) ('.' :: (ws ++ t))
  have hwtake : (ws ++ t).takeWhile isWS = ws :=
    takeWhile_all_app isWS ws t hw ht
  have hwdrop : (ws ++ t).drop ws.length = t := List.drop_left ws t
  have hwne : ws.isEmpty = false := by
    cases ws with
    | nil => exact absurd rfl hws
    | cons a l => rfl
  have hstrip : stripOrdered (d :: (ds ++ '.' :: (ws ++ t))) = t := by
    unfold stripOrdered
    rw [htake, hdrop]
    simp only [List.isEmpty_cons, Bool.false_eq_true, if_false]
    rw [hwtake, hwne]
    simp only [Bool.false_eq_true, if_false]
    exact hwdrop
  simp [classify, startsWithL, hno1, hno2, hno3, hord, hstrip]

/-- An ordered-list line whose dot is not followed by whitespace keeps
its text unchanged. -/
theorem classify_ord_nostrip (d : Char) (ds t : List Char)
    (hd : ∀ c ∈ d :: ds, c.isDigit = true)
    (ht : ∀ c, t.head? = some c → isWS c = false) :
    classify (d :: (ds ++ '.' :: t)) =
      RenderNode.listItem true (d :: (ds ++ '.' :: t)) := by
  have hd0 : d.isDigit = true := hd d (List.mem_cons_self ..)
  have hno1 : (('#' : Char) == d) = false :=
    beq_false_of_digit_status '#' d hd0 (by decide)
  have hno2 : (('-' : Char) == d) = false :=
    beq_false_of_digit_status '-' d hd0 (by decide)
  have hno3 : (('*' : Char) == d) = false :=
    beq_false_of_digit_status '*' d hd0 (by decide)
  have hord : ordMatch (d :: (ds ++ '.' :: t)) = true := by
    show (d.isDigit && ordTail (ds ++ '.' :: t)) = true
    rw [hd0, ordTail_digits_dot ds _ (fun c hc => hd c (List.mem_cons_of_mem _ hc))]
    rfl
  have htake : (d :: (ds ++ '.' :: t)).takeWhile Char.isDigit = d :: ds := by
    rw [← List.cons_append]
    exact takeWhile_all_app Char.isDigit (d :: ds) ('.' :: t) hd
      (fun c hc => by simp at hc; rw [← hc]; decide)
  have hdrop : (d :: (ds ++ '.' :: t)).drop (d :: ds).length = '.' :: t := by
    rw [← List.cons_append]
    exact List.drop_left (d :: ds) ('.' :: t)
  have hwtake : t.takeWhile isWS = [] := by
    cases t with
    | nil => rfl
    | cons c cs => simp [List.takeWhile_cons, ht c rfl]
  have hstrip : stripOrdered (d :: (ds ++ '.' :: t)) = d :: (ds ++ '.' :: t) := by
    unfold stripOrdered
    rw [htake, hdrop]
    simp only [List.isEmpty_cons, Bool.false_eq_true, if_false]
    rw [hwtake]
    simp
  simp [classify, startsWithL, hno1, hno2, hno3, hord, hstrip]

/-- A line whose trim is empty consists of whitespace only. -/
theorem jsTrim_nil_allWS (l : List Char) (h : jsTrim l = []) :
    ∀ c ∈ l, isWS c = true := by
  unfold jsTrim at h
  rw [List.reverse_eq_nil_iff, List.dropWhile_eq_nil_iff] at h
  intro c hc
  have hsplit := @List.takeWhile_append_dropWhile _ isWS l
  rw [← hsplit] at hc
  rcases List.mem_append.mp hc with hm | hm
  · exact List.mem_takeWhile_imp hm
  · exact h c (List.mem_reverse.mpr hm)

/-- A whitespace-only line falls through every marker branch and is
emitted as a spacer node. -/
theorem classify_blank (line : List Char) (h : jsTrim line = []) :
    classify line = RenderNode.blank := by
  have hall := jsTrim_nil_allWS line h
  cases line with
  | nil => decide
  | cons c rest =>
    have hc : isWS c = true := hall c (List.mem_cons_self ..)
    have h4 : c.isDigit = false := isWS_not_digit c hc
    have h1 : (('#' : Char) == c) = false := beq_false_of_ws '#' c hc (by decide)
    have h2 : (('-' : Char) == c) = false := beq_false_of_ws '-' c hc (by decide)
    have h3 : (('*' : Char) == c) = false := beq_false_of_ws '*' c hc (by decide)
    simp [classify, startsWithL, ordMatch, h1, h2, h3, h4, h]

/-- From the Normal state a non-fence line is classified and emitted,
leaving the buffer and the flag untouched. -/
theorem step_normal (s : RState) (line : List Char)
    (h1 : s.inCode = false) (h2 : isFence line = false) :
    step s line = ⟨s.elements ++ [classify line], s.buffer, false⟩ := by
  simp [step, h1, h2]

/-- C4 (amended): in the Normal state each non-fence line is classified
in the source's priority order with heading and unordered-list markers
stripped; an ordered-list line has its digits-and-dot head stripped
exactly when it is followed by at least one whitespace character,
otherwise the text is kept unchanged; whitespace-only lines yield the
spacer node, and the concrete heading line of the spec yields a
level-two heading with its marker stripped. -/
theorem classifyPriority_amended :
    (∀ (s : RState) (line : List Char), s.inCode = false → isFence line = false →
        step s line = ⟨s.elements ++ [classify line], s.buffer, false⟩) ∧
    (∀ t, classify ('#' :: ' ' :: t) = RenderNode.heading 1 t) ∧
    (∀ t, classify ('#' :: '#' :: ' ' :: t) = RenderNode.heading 2 t) ∧
    (∀ t, classify ('#' :: '#' :: '#' :: ' ' :: t) = RenderNode.heading 3 t) ∧
    (∀ t, classify ('-' :: ' ' :: t) = RenderNode.listItem false t) ∧
    (∀ t, classify ('*' :: ' ' :: t) = RenderNode.listItem false t) ∧
    (∀ ds ws t, ds ≠ [] → (∀ c ∈ ds, c.isDigit = true) → ws ≠ [] →
        (∀ c ∈ ws, isWS c = true) → (∀ c, t.head? = some c → isWS c = false) →
        classify (ds ++ '.' :: (ws ++ t)) = RenderNode.listItem true t) ∧
    (∀ ds t, ds ≠ [] → (∀ c ∈ ds, c.isDigit = true) →
        (∀ c, t.head? = some c → isWS c = false) →
        classify (ds ++ '.' :: t) = RenderNode.listItem true (ds ++ '.' :: t)) ∧
    (∀ line, jsTrim line = [] → classify line = RenderNode.blank) ∧
    classify ("## Title".toList) = RenderNode.heading 2 ("Title".toList) := by
  refine ⟨step_normal, classify_h1, classify_h2, classify_h3, classify_dash,
    classify_star, ?_, ?_, classify_blank, by decide⟩
  · intro ds ws t hne hd hws hw ht
    obtain ⟨d, ds', rfl⟩ := List.exists_cons_of_ne_nil hne
    rw [List.cons_append]
    exact classify_ord_strip d ds' ws t hd hws hw ht
  · intro ds t hne hd ht
    obtain ⟨d, ds', rfl⟩ := List.exists_cons_of_ne_nil hne
    rw [List.cons_append]
    exact classify_ord_nostrip d ds' t hd ht

/-- Witness for the amended C4 at a concrete stripped ordered line. -/
theorem classifyPriority_amended_wit :
    classify ("1. foo".toList) = RenderNode.listItem true ("foo".toList) := by
  have h := classifyPriority_amended.2.2.2.2.2.2.1 ['1'] [' '] ("foo".toList)
    (by decide) (by decide) (by decide) (by decide) (by decide)
  exact h

/-- A found star pair decomposes the list around it. -/
theorem findBB_some (cs : List Char) :
    ∀ pre post, findBB cs = some (pre, post) → cs = pre ++ '*' :: '*' :: post := by
  induction cs with
  | nil => intro pre post h; simp [findBB] at h
  | cons c rest ih =>
    intro pre post h
    cases rest with
    | nil => simp [findBB] at h
    | cons d rest2 =>
      by_cases hcd : (c == '*' && d == '*') = true
      · rw [show findBB (c :: d :: rest2) = some ([], rest2) by simp [findBB, hcd]] at h
        simp only [Option.some.injEq, Prod.mk.injEq] at h
        obtain ⟨h1, h2⟩ := h
        subst h1
        subst h2
        simp only [Bool.and_eq_true, beq_iff_eq] at hcd
        obtain ⟨rfl, rfl⟩ := hcd
        simp
      · rw [show findBB (c :: d :: rest2) =
            (findBB (d :: rest2)).map (fun p => (c :: p.1, p.2)) by
              simp [findBB, hcd]] at h
        rw [Option.map_eq_some'] at h
        obtain ⟨⟨p1, p2⟩, hf, heq⟩ := h
        simp only [Prod.mk.injEq] at heq
        obtain ⟨h1, h2⟩ := heq
        subst h1
        subst h2
        have hrec := ih p1 p2 hf
        rw [show (c :: d :: rest2) = c :: (d :: rest2) from rfl, hrec]
        simp

/-- The found pair is the leftmost one: no pair occurs before it. -/
theorem findBB_noBB_pre (cs : List Char) :
    ∀ pre post, findBB cs = some (pre, post) → noBB pre = true := by
  induction cs with
  | nil => intro pre post h; simp [findBB] at h
  | cons c rest ih =>
    intro pre post h
    cases rest with
    | nil => simp [findBB] at h
    | cons d rest2 =>
      by_cases hcd : (c == '*' && d == '*') = true
      · rw [show findBB (c :: d :: rest2) = some ([], rest2) by simp [findBB, hcd]] at h
        simp only [Option.some.injEq, Prod.mk.injEq] at h
        obtain ⟨h1, _⟩ := h
        subst h1
        rfl
      · rw [show findBB (c :: d :: rest2) =
            (findBB (d :: rest2)).map (fun p => (c :: p.1, p.2)) by
              simp [findBB, hcd]] at h
        rw [Option.map_eq_some'] at h
        obtain ⟨⟨p1, p2⟩, hf, heq⟩ := h
        simp only [Prod.mk.injEq] at heq
        obtain ⟨h1, h2⟩ := heq
        subst h1
        have hp := ih p1 p2 hf
        cases hp1 : p1 with
        | nil => rfl
        | cons e p3 =>
          have hdec := findBB_some (d :: rest2) p1 p2 hf
          rw [hp1] at hdec
          have hde : d = e := by
            have hh := congrArg List.head? hdec
            simpa using hh
          subst hde
          rw [hp1] at hp
          show (!(c == '*' && d == '*') && noBB (d :: p3)) = true
          rw [hp]
          have hcd' : (c == '*' && d == '*') = false := Bool.eq_false_iff.mpr hcd
          rw [hcd']
          rfl

/-- When no pair is found, no two adjacent stars occur at all. -/
theorem findBB_none_noBB (cs : List Char) (h : findBB cs = none) : noBB cs = true := by
  induction cs with
  | nil => rfl
  | cons c rest ih =>
    cases rest with
    | nil => rfl
    | cons d rest2 =>
      by_cases hcd : (c == '*' && d == '*') = true
      · rw [show findBB (c :: d :: rest2) = some ([], rest2) by simp [findBB, hcd]] at h
        simp at h
      · rw [show findBB (c :: d :: rest2) =
            (findBB (d :: rest2)).map (fun p => (c :: p.1, p.2)) by
              simp [findBB, hcd]] at h
        rw [Option.map_eq_none'] at h
        have hrec := ih h
        show (!(c == '*' && d == '*') && noBB (d :: rest2)) = true
        rw [hrec]
        have hcd' : (c == '*' && d == '*') = false := Bool.eq_false_iff.mpr hcd
        rw [hcd']
        rfl

/-- A list that starts with the delimiter opens with two stars. -/
theorem bbStart_shape (cs : List Char) (h : bbStart cs = true) :
    ∃ r, cs = '*' :: '*' :: r := by
  cases cs with
  | nil => simp [bbStart] at h
  | cons c rest =>
    cases rest with
    | nil => simp [bbStart] at h
    | cons d rest2 =>
      simp only [bbStart, Bool.and_eq_true, beq_iff_eq] at h
      obtain ⟨rfl, rfl⟩ := h
      exact ⟨rest2, rfl⟩

/-- On a list opening with two stars the search finds them first. -/
theorem findBB_bb (r : List Char) : findBB ('*' :: '*' :: r) = some ([], r) := by
  simp [findBB]

/-- A list ending in two stars contains an adjacent pair. -/
theorem noBB_append_bb (l : List Char) : noBB (l ++ ['*', '*']) = false := by
  induction l with
  | nil => rfl
  | cons c l ih =>
    cases hl : l ++ ['*', '*'] with
    | nil => simp at hl
    | cons d rest =>
      show noBB (c :: (l ++ ['*', '*'])) = false
      rw [hl]
      show (!(c == '*' && d == '*') && noBB (d :: rest)) = false
      rw [← hl, ih]
      simp

/-- A list that ends with the delimiter closes with two stars. -/
theorem bbEnd_shape (l : List Char) (h : bbEnd l = true) :
    ∃ q, l = q ++ ['*', '*'] := by
  unfold bbEnd at h
  obtain ⟨r, hr⟩ := bbStart_shape l.reverse h
  refine ⟨r.reverse, ?_⟩
  have h2 := congrArg List.reverse hr
  rw [List.reverse_reverse] at h2
  rw [h2]
  simp

/-- Appending two stars makes the delimiter test at the end succeed. -/
theorem bbEnd_append_bb (q : List Char) : bbEnd (q ++ ['*', '*']) = true := by
  unfold bbEnd
  rw [List.reverse_append]
  simp [bbStart]

/-- Cutting two characters from either side of a delimited match
recovers its inner text. -/
theorem slice2m2_sep (inner : List Char) :
    slice2m2 ('*' :: '*' :: (inner ++ ['*', '*'])) = inner := by
  unfold slice2m2
  show (inner ++ ['*', '*']).take (('*' :: '*' :: (inner ++ ['*', '*'])).length - 4) = inner
  have hlen : ('*' :: '*' :: (inner ++ ['*', '*'])).length - 4 = inner.length := by
    simp
  rw [hlen]
  exact List.take_left inner ['*', '*']

/-- Every gap piece of the fuelled decomposition either contains no
adjacent star pair, or is a terminal piece whose first pair has no
closing pair after it. -/
theorem splitPiecesF_gap (fuel : Nat) :
    ∀ (cs s : List Char), cs.length ≤ fuel →
      Piece.gap s ∈ splitPiecesF fuel cs →
      noBB s = true ∨ ∃ pre post, findBB s = some (pre, post) ∧ findBB post = none := by
  induction fuel with
  | zero =>
    intro cs s hlen hmem
    have hcs : cs = [] := List.length_eq_zero.mp (Nat.le_zero.mp hlen)
    subst hcs
    simp [splitPiecesF] at hmem
    subst hmem
    left
    rfl
  | succ fuel ih =>
    intro cs s hlen hmem
    rw [splitPiecesF] at hmem
    split at hmem
    · rename_i hf
      simp at hmem
      subst hmem
      left
      exact findBB_none_noBB _ hf
    · rename_i pre post hf
      rcases hg : findBB post with _ | ⟨mid, rest⟩
      · rw [hg] at hmem
        simp at hmem
        subst hmem
        right
        exact ⟨pre, post, hf, hg⟩
      · rw [hg] at hmem
        simp only [List.mem_cons] at hmem
        rcases hmem with h1 | h1 | h1
        · left
          injection h1 with hsp
          subst hsp
          exact findBB_noBB_pre _ _ _ hf
        · exact absurd h1 (by simp)
        · have e1 := findBB_some cs pre post hf
          have e2 := findBB_some post mid rest hg
          have l1 := congrArg List.length e1
          have l2 := congrArg List.length e2
          simp [List.length_append] at l1 l2
          exact ih rest s (by omega) h1

/-- Gap pieces of the match decomposition, with full fuel. -/
theorem splitPieces_gap (cs s : List Char) (h : Piece.gap s ∈ splitPieces cs) :
    noBB s = true ∨ ∃ pre post, findBB s = some (pre, post) ∧ findBB post = none :=
  splitPiecesF_gap cs.length cs s le_rfl h

/-- A gap piece other than two or three bare stars never passes the
renderer's start-and-end delimiter test. -/
theorem gap_not_bold (line s : List Char)
    (hmem : Piece.gap s ∈ splitPieces line)
    (h2 : s ≠ ['*', '*']) (h3 : s ≠ ['*', '*', '*']) :
    (bbStart s && bbEnd s) = false := by
  by_contra hcon
  have hcon' : (bbStart s && bbEnd s) = true := by
    cases hx : bbStart s && bbEnd s
    · exact absurd hx hcon
    · rfl
  rw [Bool.and_eq_true] at hcon'
  obtain ⟨hs, he⟩ := hcon'
  obtain ⟨r, rfl⟩ := bbStart_shape s hs
  rcases splitPieces_gap line _ hmem with hno | ⟨pre, post, hf, hg⟩
  · have hfalse : noBB ('*' :: '*' :: r) = false := by
      show (!('*' == '*' && '*' == '*') && noBB ('*' :: r)) = false
      simp
    rw [hfalse] at hno
    simp at hno
  · rw [findBB_bb r] at hf
    simp only [Option.some.injEq, Prod.mk.injEq] at hf
    obtain ⟨h4, h5⟩ := hf
    subst h4
    subst h5
    have hnr : noBB r = true := findBB_none_noBB r hg
    obtain ⟨q, hq⟩ := bbEnd_shape _ he
    cases q with
    | nil =>
      simp at hq
      exact h2 (by rw [hq])
    | cons a q1 =>
      cases q1 with
      | nil =>
        simp at hq
        obtain ⟨-, hq3⟩ := hq
        exact h3 (by rw [hq3])
      | cons b q2 =>
        simp at hq
        obtain ⟨-, -, hq3⟩ := hq
        rw [hq3, noBB_append_bb] at hnr
        simp at hnr

/-- C5 (amended): for every paragraph line none of whose split parts is
exactly two or exactly three stars, the renderer flags bold exactly the
text between matching non-greedy two-star delimiter pairs with the
delimiters removed and passes all other text through unmodified (the
spec-side description specBoldSpans); a part of two or three stars is
instead emitted as an empty bold span.  The concrete bold example of the
spec holds as stated. -/
theorem boldSpans_amended :
    (∀ line : List Char,
        ('*' :: '*' :: []) ∉ splitBB line →
        ('*' :: '*' :: '*' :: []) ∉ splitBB line →
        toSpans line = specBoldSpans line) ∧
    toSpans ("Hello **world** now".toList) =
      [⟨"Hello ".toList, false⟩, ⟨"world".toList, true⟩, ⟨" now".toList, false⟩] := by
  constructor
  · intro line h2 h3
    unfold toSpans specBoldSpans splitBB
    rw [List.map_map]
    apply List.map_congr_left
    intro pc hpc
    cases pc with
    | sep inner =>
      show mkSpan ('*' :: '*' :: (inner ++ ['*', '*'])) = (⟨inner, true⟩ : Span)
      have h1 : bbStart ('*' :: '*' :: (inner ++ ['*', '*'])) = true := by
        simp [bbStart]
      have hend : bbEnd ('*' :: '*' :: (inner ++ ['*', '*'])) = true := by
        show bbEnd (('*' :: '*' :: inner) ++ ['*', '*']) = true
        exact bbEnd_append_bb ('*' :: '*' :: inner)
      simp [mkSpan, h1, hend, slice2m2_sep]
    | gap s =>
      show mkSpan s = (⟨s, false⟩ : Span)
      have hsmem : s ∈ splitBB line := by
        have := List.mem_map_of_mem pieceText hpc
        simpa [splitBB] using this
      have hs2 : s ≠ ['*', '*'] := fun he => h2 (he ▸ hsmem)
      have hs3 : s ≠ ['*', '*', '*'] := fun he => h3 (he ▸ hsmem)
      have hb := gap_not_bold line s hpc hs2 hs3
      simp [mkSpan, hb]
  · decide

/-- Witness for the amended C5 at the spec's concrete bold line. -/
theorem boldSpans_amended_wit :
    toSpans ("Hello **world** now".toList) =
      specBoldSpans ("Hello **world** now".toList) :=
  boldSpans_amended.1 ("Hello **world** now".toList) (by decide) (by decide)
